import Mathlib

/-!
# Verification of the sensespace-did token/address library

Shallow embedding of the TypeScript sources (`src/utils.ts`, `src/core.ts`,
`src/types.ts`) of the sensespace-did library, together with proofs of the
specified properties of the SS58 address codec, the time-claim validator,
the token issuer and the token verification engine.

Conventions used throughout:

* Bytes are `Nat` values `< 256`; `Buffer`/`Uint8Array` values are `List Nat`.
* JavaScript epoch-second timestamps are `Int`.
* JSON-compatible JavaScript values are modelled by `JVal`; plain objects by
  `JObj`, an association list whose lookup takes the *last* binding for a key
  (this is the JavaScript semantics both for duplicate keys in `JSON.parse`
  and for object-literal spread, where later entries override earlier ones).
* Code that can `throw` is modelled in `Except String`, carrying the thrown
  message.
* External primitives that are not part of this repository (the `blake2b`
  digest, the `@noble/ed25519` operations, `JSON.parse`/`JSON.stringify`,
  base64url transcoding, `fetch`, and the ambient clock `Date.now()`) are
  taken as explicit function parameters of the embedded operations, so every
  theorem below holds for an arbitrary choice of those primitives unless its
  statement constrains them.  The `bs58` base-58 codec, by contrast, is
  modelled concretely, because the address-codec claims depend on its
  arithmetic.
-/

namespace SenseSpace

/-- JSON-compatible JavaScript value (scalars; nested objects/arrays are not
needed by any verified property and are omitted from the model). -/
inductive JVal where
  | num (n : Int)
  | str (s : String)
  | bool (b : Bool)
  | null
deriving DecidableEq, Repr

/-- A JavaScript plain object: an association list of fields. -/
abbrev JObj := List (String × JVal)

deriving instance DecidableEq for Except

/-- Field lookup on a `JObj`.  The *last* binding for a key wins, matching
JavaScript semantics for duplicate JSON keys and for object spread. -/
def jget (o : JObj) (k : String) : Option JVal :=
  (o.reverse.find? (fun kv => kv.1 == k)).map (fun kv => kv.2)

/-- JavaScript truthiness of a `JVal`. -/
def truthy : JVal → Bool
  | .num n => n != 0
  | .str s => s != ""
  | .bool b => b
  | .null => false

/-- JavaScript string coercion (as in a template literal) of a possibly
`undefined` value: `undefined` prints as `"undefined"`. -/
def jsDisplay : Option JVal → String
  | none => "undefined"
  | some (.num n) => toString n
  | some (.str s) => s
  | some (.bool b) => if b then "true" else "false"
  | some .null => "null"

/-! ## Base-58 codec (the `bs58`/`base-x` dependency)

The `base-x` algorithm: leading zero bytes become leading `'1'` characters,
and the remaining bytes are read as a big-endian base-256 number and written
out in base 58 (most significant digit first).  Decoding reverses this and
rejects any character outside the alphabet (`bs58.decode` throws
`Non-base58 character`). -/

/-- Base-conversion worker: little-endian digits of `n` in base `b`, with a
structural fuel argument so that it reduces in the kernel.  `natDigits`
supplies enough fuel for the recursion to complete. -/
def natDigitsAux (b : Nat) : Nat → Nat → List Nat
  | 0, _ => []
  | _, 0 => []
  | fuel+1, n+1 => ((n+1) % b) :: natDigitsAux b fuel ((n+1) / b)

/-- Little-endian base-`b` digits of `n` (empty for `n = 0`). -/
def natDigits (b n : Nat) : List Nat := natDigitsAux b n n

/-- The Bitcoin base-58 alphabet used by `bs58`. -/
def b58Chars : List Char :=
  "123456789ABCDEFGHJKLMNPQRSTUVWXYZabcdefghijkmnopqrstuvwxyz".toList

/-- Digit value to alphabet character. -/
def b58Char (d : Nat) : Char := b58Chars.getD d '1'

/-- Alphabet character to digit value; `none` for a non-alphabet character. -/
def b58Index (c : Char) : Option Nat := b58Chars.findIdx? (fun x => x == c)

/-- Big-endian base-256 value of a byte list (the accumulator loop of
`base-x` encode). -/
def beBytesToNat (l : List Nat) : Nat := l.foldl (fun acc d => acc * 256 + d) 0

/-- Big-endian base-58 value of a digit list (the accumulator loop of
`base-x` decode). -/
def b58ListToNat (l : List Nat) : Nat := l.foldl (fun acc d => acc * 58 + d) 0

/-- Model of `bs58.encode`: leading zero bytes become `'1'`s, the rest is converted to
base-58 digits, most significant first. -/
def bs58Encode (bytes : List Nat) : String :=
  let zeros := bytes.takeWhile (· == 0)
  let rest := bytes.dropWhile (· == 0)
  let digits := (natDigits 58 (beBytesToNat rest)).reverse
  String.mk (List.replicate zeros.length '1' ++ digits.map b58Char)

/-- Model of `bs58.decode`: `none` models the `Non-base58 character` throw; otherwise
leading `'1'`s become zero bytes and the remaining digits are converted to
big-endian base-256 bytes. -/
def bs58Decode (s : String) : Option (List Nat) :=
  match s.toList.mapM b58Index with
  | none => none
  | some ds =>
    let zeros := ds.takeWhile (· == 0)
    let rest := ds.dropWhile (· == 0)
    some (List.replicate zeros.length 0 ++ (natDigits 256 (b58ListToNat rest)).reverse)

/-! ### Base-58 round-trip -/

theorem natDigitsAux_eq_digits (b : Nat) (hb : 2 ≤ b) :
    ∀ fuel n, n ≤ fuel → natDigitsAux b fuel n = Nat.digits b n := by
  intro fuel
  induction fuel with
  | zero =>
    intro n hn
    interval_cases n
    simp [natDigitsAux]
  | succ fuel ih =>
    intro n hn
    cases n with
    | zero => simp [natDigitsAux]
    | succ m =>
      rw [natDigitsAux, Nat.digits_def' (by omega : 1 < b) (Nat.succ_pos m)]
      congr 1
      refine ih _ ?_
      have h2 : (m + 1) / b < m + 1 := Nat.div_lt_self (by omega) (by omega)
      omega

theorem natDigits_eq_digits (b n : Nat) (hb : 2 ≤ b) :
    natDigits b n = Nat.digits b n :=
  natDigitsAux_eq_digits b hb n n le_rfl

theorem foldl_mulAdd (b : Nat) :
    ∀ (l : List Nat) (a : Nat),
      l.foldl (fun acc d => acc * b + d) a = a * b ^ l.length + Nat.ofDigits b l.reverse := by
  intro l
  induction l with
  | nil => intro a; simp [Nat.ofDigits_nil]
  | cons x l ih =>
    intro a
    rw [List.foldl_cons, ih, List.reverse_cons, Nat.ofDigits_append]
    simp [Nat.ofDigits_singleton, pow_succ]
    ring

theorem beBytesToNat_eq (l : List Nat) : beBytesToNat l = Nat.ofDigits 256 l.reverse := by
  simp [beBytesToNat, foldl_mulAdd]

theorem b58ListToNat_eq (l : List Nat) : b58ListToNat l = Nat.ofDigits 58 l.reverse := by
  simp [b58ListToNat, foldl_mulAdd]

theorem b58Index_b58Char : ∀ d, d < 58 → b58Index (b58Char d) = some d := by decide

theorem mapM_b58Index_map (ds : List Nat) (h : ∀ d ∈ ds, d < 58) :
    (ds.map b58Char).mapM b58Index = some ds := by
  induction ds with
  | nil => rfl
  | cons d ds ih =>
    have hd : d < 58 := h d (by simp)
    simp only [List.map_cons, List.mapM_cons, b58Index_b58Char d hd,
      ih (fun x hx => h x (by simp [hx]))]
    rfl

theorem takeWhile_dropWhile_replicate_zero_append (k : Nat) (l : List Nat)
    (hl : ∀ x, l.head? = some x → (x == 0) = false) :
    (List.replicate k 0 ++ l).takeWhile (· == 0) = List.replicate k 0 ∧
    (List.replicate k 0 ++ l).dropWhile (· == 0) = l := by
  induction k with
  | zero =>
    cases l with
    | nil => simp
    | cons x xs =>
      have := hl x rfl
      simp [List.takeWhile_cons, List.dropWhile_cons, this]
  | succ k ih =>
    simp only [List.replicate_succ, List.cons_append, List.takeWhile_cons,
      List.dropWhile_cons]
    simpa using ih

theorem head?_dropWhile_false {α : Type} (p : α → Bool) :
    ∀ (l : List α) (x : α), (l.dropWhile p).head? = some x → p x = false := by
  intro l
  induction l with
  | nil => intro x hx; simp [List.dropWhile] at hx
  | cons a l ih =>
    intro x hx
    rw [List.dropWhile_cons] at hx
    by_cases hpa : p a
    · simp [hpa] at hx
      exact ih x hx
    · simp [hpa] at hx
      subst hx
      simpa using hpa

theorem beBytesToNat_cons_pos (hd : Nat) (tl : List Nat) (hhd : hd ≠ 0) :
    0 < beBytesToNat (hd :: tl) := by
  rw [beBytesToNat_eq, List.reverse_cons, Nat.ofDigits_append]
  have : 0 < hd * 256 ^ tl.reverse.length :=
    Nat.mul_pos (Nat.pos_of_ne_zero hhd) (Nat.pos_pow_of_pos _ (by norm_num))
  simp [Nat.ofDigits_singleton]
  omega

/-- The base-58 round-trip: decoding an encoded byte list recovers it
exactly, provided every entry is a byte. -/
theorem bs58_roundtrip (bytes : List Nat) (h : ∀ b ∈ bytes, b < 256) :
    bs58Decode (bs58Encode bytes) = some bytes := by
  have hzr : bytes.takeWhile (· == 0) ++ bytes.dropWhile (· == 0) = bytes :=
    List.takeWhile_append_dropWhile (· == 0) bytes
  set r := bytes.dropWhile (· == 0) with hr
  set z := bytes.takeWhile (· == 0) with hzdef
  have hz : z = List.replicate z.length 0 := by
    rw [List.eq_replicate_iff]
    refine ⟨rfl, fun b hb => ?_⟩
    have := List.mem_takeWhile_imp hb
    simpa using this
  have hrbytes : ∀ x ∈ r, x < 256 := by
    intro x hx
    apply h
    rw [← hzr]
    exact List.mem_append_right _ hx
  set n := beBytesToNat r with hn
  set digitsE := (natDigits 58 n).reverse with hdig
  -- facts about the big-endian digit list
  have hfacts : (∀ d ∈ digitsE, d < 58) ∧
      (∀ x, digitsE.head? = some x → (x == 0) = false) ∧
      b58ListToNat digitsE = n ∧
      (natDigits 256 (b58ListToNat digitsE)).reverse = r := by
    rcases hcr : r with _ | ⟨hd, tl⟩
    · have hn0 : n = 0 := by rw [hn, hcr]; rfl
      have hdnil : digitsE = [] := by rw [hdig, hn0]; rfl
      refine ⟨?_, ?_, ?_, ?_⟩ <;>
        simp [hdnil, hn0, b58ListToNat, natDigits, natDigitsAux, hcr]
    · have hhd : hd ≠ 0 := by
        have := head?_dropWhile_false (· == 0) bytes hd (by rw [← hr, hcr]; rfl)
        simpa using this
      have hnpos : 0 < n := by rw [hn, hcr]; exact beBytesToNat_cons_pos hd tl hhd
      have hdig58 : digitsE = (Nat.digits 58 n).reverse := by
        rw [hdig, natDigits_eq_digits 58 n (by norm_num)]
      have hlt : ∀ d ∈ digitsE, d < 58 := by
        intro d hd'
        rw [hdig58, List.mem_reverse] at hd'
        exact Nat.digits_lt_base (by norm_num) hd'
      have hne : Nat.digits 58 n ≠ [] := by
        rw [Nat.digits_ne_nil_iff_ne_zero]; omega
      have hhead : ∀ x, digitsE.head? = some x → (x == 0) = false := by
        intro x hx
        rw [hdig58, List.head?_reverse] at hx
        have hgl : (Nat.digits 58 n).getLast hne = x := by
          rwa [List.getLast?_eq_getLast _ hne, Option.some_inj] at hx
        have hnz := Nat.getLast_digit_ne_zero 58 (show n ≠ 0 by omega)
        simp only [beq_eq_false_iff_ne, ne_eq]
        rw [← hgl]
        exact hnz
      have hval : b58ListToNat digitsE = n := by
        rw [b58ListToNat_eq, hdig58, List.reverse_reverse, Nat.ofDigits_digits]
      have hback : (natDigits 256 (b58ListToNat digitsE)).reverse = r := by
        rw [hval, natDigits_eq_digits 256 n (by norm_num)]
        have hnr : n = Nat.ofDigits 256 r.reverse := by rw [hn, beBytesToNat_eq]
        have hrne : r.reverse ≠ [] := by simp [hcr]
        have hlast : r.reverse.getLast hrne ≠ 0 := by
          rw [List.getLast_reverse]
          simpa [hcr] using hhd
        have hdr : Nat.digits 256 n = r.reverse := by
          rw [hnr]
          exact Nat.digits_ofDigits 256 (by norm_num) r.reverse
            (fun x hx => hrbytes x (List.mem_reverse.mp hx))
            (fun _ => hlast)
        rw [hdr, List.reverse_reverse]
      refine ⟨hlt, hhead, hval, ?_⟩
      rw [hback]
      exact hcr
  obtain ⟨hlt, hhead, hval, hback⟩ := hfacts
  -- the encoded character list is the image of `replicate z.length 0 ++ digitsE`
  have hchars : List.replicate z.length '1' ++ digitsE.map b58Char
      = (List.replicate z.length 0 ++ digitsE).map b58Char := by
    rw [List.map_append, List.map_replicate]
    rfl
  have hallLt : ∀ d ∈ List.replicate z.length 0 ++ digitsE, d < 58 := by
    intro d hd
    rcases List.mem_append.mp hd with h0 | h1
    · have := List.eq_of_mem_replicate h0; omega
    · exact hlt d h1
  have htd := takeWhile_dropWhile_replicate_zero_append z.length digitsE hhead
  show bs58Decode (bs58Encode bytes) = some bytes
  rw [bs58Encode]
  simp only [← hr, ← hzdef, ← hn, ← hdig]
  rw [bs58Decode]
  simp only [String.toList]
  show (match (List.replicate z.length '1' ++ digitsE.map b58Char).mapM b58Index with
    | none => none
    | some ds =>
      some (List.replicate (ds.takeWhile (· == 0)).length 0 ++
        (natDigits 256 (b58ListToNat (ds.dropWhile (· == 0)))).reverse)) = some bytes
  rw [hchars, mapM_b58Index_map _ hallLt]
  simp only [htd.1, htd.2, List.length_replicate, hback]
  rw [← hz, hzr]

/-! ## SS58 address codec (`src/utils.ts`) -/

/-- Model of `generateSS58Address(publicKey, prefix = 42)` (utils.ts 83–99).  The
external `blake2b(64)` digest is the parameter `blake2b512`;
`Buffer.from([prefix])` keeps the low byte of the prefix value. -/
def generateSS58Address (blake2b512 : List Nat → List Nat) (publicKey : List Nat)
    (pfx : Nat := 42) : String :=
  let checksumInput := (pfx % 256) :: publicKey
  let fullHash := blake2b512 checksumInput
  let checksum := fullHash.take 2
  let addressBytes := (pfx % 256) :: (publicKey ++ checksum)
  bs58Encode addressBytes

/-- The raw-byte part of `ss58DecodePublicKey` (utils.ts 52–77), applied to
the result of `bs58.decode`. -/
def ss58DecodeRaw (raw : List Nat) : Except String (List Nat) :=
  if raw.length < 1 + 32 + 2 then
    Except.error ("SS58 raw too short: " ++ toString raw.length ++ " bytes")
  else
    let prefixLen : Nat :=
      if raw.length = 1 + 32 + 2 then 1
      else if raw.length = 2 + 32 + 2 then 2
      else raw.length - 32 - 2
    let pubkey := (raw.drop prefixLen).take 32
    if pubkey.length ≠ 32 then Except.error "Decoded public key is not 32 bytes"
    else Except.ok pubkey

/-- Model of `ss58DecodePublicKey` (utils.ts 49–78): base-58 decode (`bs58.decode`
throws `Non-base58 character` on an invalid character), then prefix-length
inference and key extraction. -/
def ss58DecodePublicKey (s : String) : Except String (List Nat) :=
  match bs58Decode s with
  | none => Except.error "Non-base58 character"
  | some raw => ss58DecodeRaw raw

theorem ss58DecodeRaw_short (raw : List Nat) (hr : raw.length < 35) :
    ss58DecodeRaw raw =
      Except.error ("SS58 raw too short: " ++ toString raw.length ++ " bytes") := by
  simp only [ss58DecodeRaw]
  rw [if_pos (by omega : raw.length < 1 + 32 + 2)]

theorem ss58DecodeRaw_eq (raw : List Nat) (h : 35 ≤ raw.length) :
    ss58DecodeRaw raw = Except.ok ((raw.drop (raw.length - 34)).take 32) := by
  have hlen : ((raw.drop (raw.length - 34)).take 32).length = 32 := by
    simp only [List.length_take, List.length_drop]
    omega
  have hp : (if raw.length = 1 + 32 + 2 then 1
      else if raw.length = 2 + 32 + 2 then 2
      else raw.length - 32 - 2) = raw.length - 34 := by
    split_ifs <;> omega
  simp only [ss58DecodeRaw, hp]
  rw [if_neg (by omega : ¬ raw.length < 1 + 32 + 2), if_neg (not_ne_iff.mpr hlen)]

/-- Claim C1: SS58 address round-trip.  For every 32-byte public key and
every prefix, decoding the generated address returns exactly that key, and
re-encoding the decoded key with the same prefix reproduces the address
string.  Holds for an arbitrary `blake2b` digest whose output consists of
bytes and is at least 2 bytes long. -/
theorem ss58_address_roundtrip (blake : List Nat → List Nat) (key : List Nat) (pfx : Nat)
    (hlen : key.length = 32) (hkey : ∀ b ∈ key, b < 256)
    (hhash : ∀ x, ∀ b ∈ blake x, b < 256) (hhlen : ∀ x, 2 ≤ (blake x).length) :
    ss58DecodePublicKey (generateSS58Address blake key pfx) = Except.ok key ∧
    ∀ k2, ss58DecodePublicKey (generateSS58Address blake key pfx) = Except.ok k2 →
      generateSS58Address blake k2 pfx = generateSS58Address blake key pfx := by
  have main : ss58DecodePublicKey (generateSS58Address blake key pfx) = Except.ok key := by
    set cs := (blake ((pfx % 256) :: key)).take 2 with hcs
    have hcsl : cs.length = 2 := by
      rw [hcs, List.length_take]
      have := hhlen ((pfx % 256) :: key)
      omega
    have haddr : generateSS58Address blake key pfx
        = bs58Encode ((pfx % 256) :: (key ++ cs)) := rfl
    have habytes : ∀ b ∈ (pfx % 256) :: (key ++ cs), b < 256 := by
      intro b hb
      rcases List.mem_cons.mp hb with rfl | hb2
      · exact Nat.mod_lt _ (by norm_num)
      · rcases List.mem_append.mp hb2 with h1 | h2
        · exact hkey b h1
        · exact hhash _ b (List.mem_of_mem_take h2)
    have hdec := bs58_roundtrip _ habytes
    have hlraw : ((pfx % 256) :: (key ++ cs)).length = 35 := by
      simp [hlen, hcsl]
    rw [haddr, ss58DecodePublicKey, hdec]
    show ss58DecodeRaw (pfx % 256 :: (key ++ cs)) = Except.ok key
    rw [ss58DecodeRaw_eq _ (by omega), hlraw]
    norm_num
    rw [← hlen]
    exact List.take_left key cs
  refine ⟨main, fun k2 hk2 => ?_⟩
  rw [main] at hk2
  have : key = k2 := by injection hk2
  rw [← this]

/-- A concrete stand-in digest used only to instantiate theorems at concrete
inputs: a deterministic 64-byte function of the input. -/
def testDigest (l : List Nat) : List Nat :=
  (List.range 64).map (fun i => (l.foldl (fun a b => a * 31 + b) i) % 256)

theorem testDigest_bytes : ∀ x, ∀ b ∈ testDigest x, b < 256 := by
  intro x b hb
  rcases List.mem_map.mp hb with ⟨i, _, rfl⟩
  exact Nat.mod_lt _ (by norm_num)

theorem testDigest_len : ∀ x, 2 ≤ (testDigest x).length := by
  intro x
  simp [testDigest]

theorem ss58_address_roundtrip_witness :
    ss58DecodePublicKey (generateSS58Address testDigest (List.replicate 32 7) 42) =
      Except.ok (List.replicate 32 7) :=
  (ss58_address_roundtrip testDigest (List.replicate 32 7) 42 (by simp)
    (fun b hb => by have := List.eq_of_mem_replicate hb; omega)
    testDigest_bytes testDigest_len).1

/-- Claim C2: decode policy.  Decoding fails with the too-short error exactly
when the base-58-decoded raw length is below 35; otherwise the prefix length
is 1 for raw length 35, 2 for raw length 36, and `rawLength − 34` in every
other case, and the 32 bytes after the prefix are returned; the 2-byte
checksum is never inspected, so any checksum bytes of a valid-length input
yield the same successfully decoded key. -/
theorem ss58_decode_prefix_policy (s : String) (raw : List Nat)
    (h : bs58Decode s = some raw) :
    (raw.length < 35 →
      ss58DecodePublicKey s =
        Except.error ("SS58 raw too short: " ++ toString raw.length ++ " bytes")) ∧
    (35 ≤ raw.length →
      ss58DecodePublicKey s =
        Except.ok ((raw.drop (if raw.length = 35 then 1 else if raw.length = 36 then 2
          else raw.length - 34)).take 32)) ∧
    (∀ body ck ck' : List Nat, 33 ≤ body.length → ck.length = 2 → ck'.length = 2 →
      ss58DecodeRaw (body ++ ck) = ss58DecodeRaw (body ++ ck')) := by
  refine ⟨?_, ?_, ?_⟩
  · intro hshort
    rw [ss58DecodePublicKey, h]
    show ss58DecodeRaw raw = _
    exact ss58DecodeRaw_short raw hshort
  · intro hlong
    rw [ss58DecodePublicKey, h]
    show ss58DecodeRaw raw = _
    rw [ss58DecodeRaw_eq raw hlong]
    have : (if raw.length = 35 then 1 else if raw.length = 36 then 2
        else raw.length - 34) = raw.length - 34 := by
      split_ifs <;> omega
    rw [this]
  · intro body ck ck' hb hck hck'
    have key_eq : ∀ tail : List Nat, tail.length = 2 →
        ss58DecodeRaw (body ++ tail) = Except.ok (body.drop (body.length - 32)) := by
      intro tail htail
      have hl : (body ++ tail).length = body.length + 2 := by
        simp [htail]
      rw [ss58DecodeRaw_eq _ (by omega), hl]
      have hdrop : (body ++ tail).drop (body.length + 2 - 34)
          = body.drop (body.length + 2 - 34) ++ tail := by
        exact List.drop_append_of_le_length (by omega)
      have hdl : (body.drop (body.length + 2 - 34)).length = 32 := by
        simp only [List.length_drop]
        omega
      rw [hdrop, List.take_left' hdl]
      have : body.length + 2 - 34 = body.length - 32 := by omega
      rw [this]
    rw [key_eq ck hck, key_eq ck' hck']

theorem ss58_decode_prefix_policy_witness :
    ss58DecodePublicKey (bs58Encode (List.replicate 36 1)) =
      Except.ok (List.replicate 32 1) := by
  have h := (ss58_decode_prefix_policy (bs58Encode (List.replicate 36 1))
    (List.replicate 36 1)
    (bs58_roundtrip _ (fun b hb => by have := List.eq_of_mem_replicate hb; omega))).2.1
    (by simp)
  simpa using h

/-- Claim C10: the `Decoded public key is not 32 bytes` branch of
`ss58DecodePublicKey` is unreachable: for every raw input of length at least
35 the extracted slice has exactly 32 bytes, so decoding either fails with
the too-short error (below 35) or succeeds with a 32-byte key. -/
theorem ss58_key_length_branch_unreachable :
    (∀ raw : List Nat, raw.length < 35 →
      ss58DecodeRaw raw =
        Except.error ("SS58 raw too short: " ++ toString raw.length ++ " bytes")) ∧
    (∀ raw : List Nat, ss58DecodeRaw raw ≠ Except.error "Decoded public key is not 32 bytes") ∧
    (∀ (s : String) (raw : List Nat), bs58Decode s = some raw → 35 ≤ raw.length →
      ∃ key, ss58DecodePublicKey s = Except.ok key ∧ key.length = 32) := by
  refine ⟨fun raw hr => ss58DecodeRaw_short raw hr, ?_, ?_⟩
  · intro raw hcontra
    by_cases hr : raw.length < 35
    · rw [ss58DecodeRaw_short raw hr] at hcontra
      have hmsg : ("SS58 raw too short: " ++ toString raw.length ++ " bytes")
          = "Decoded public key is not 32 bytes" := by injection hcontra
      have hchar := congrArg (fun m => m.data.head?) hmsg
      simp [String.data_append] at hchar
    · rw [ss58DecodeRaw_eq raw (by omega)] at hcontra
      exact Except.noConfusion hcontra
  · intro s raw hdec hlen
    refine ⟨(raw.drop (raw.length - 34)).take 32, ?_, ?_⟩
    · rw [ss58DecodePublicKey, hdec]
      show ss58DecodeRaw raw = _
      exact ss58DecodeRaw_eq raw hlen
    · simp only [List.length_take, List.length_drop]
      omega

theorem ss58_key_length_branch_unreachable_witness :
    ∃ key, ss58DecodePublicKey (bs58Encode (List.replicate 35 9)) = Except.ok key ∧
      key.length = 32 :=
  ss58_key_length_branch_unreachable.2.2 _ (List.replicate 35 9)
    (bs58_roundtrip _ (fun b hb => by have := List.eq_of_mem_replicate hb; omega))
    (by simp)

/-! ## Time-claim validation (`validateTokenTimes`, utils.ts 104–127)

The TypeScript function takes `(payload, maxAge?)` and computes
`now = Math.floor(Date.now() / 1000)` internally (line 105); the ambient
clock reading appears below as the extra model input `now`. -/

/-- Guard of the expiry check (utils.ts 108–109):
`payload.exp && typeof payload.exp === 'number'` (truthiness skips a zero
value) and then `now >= payload.exp`. -/
def expiredCheck (payload : JObj) (now : Int) : Bool :=
  match jget payload "exp" with
  | some (JVal.num e) => e != 0 && decide (e ≤ now)
  | _ => false

/-- Guard of the not-before check (utils.ts 115–116). -/
def notYetValidCheck (payload : JObj) (now : Int) : Bool :=
  match jget payload "nbf" with
  | some (JVal.num n) => n != 0 && decide (now < n)
  | _ => false

/-- Guard of the max-age check (utils.ts 122–123):
`maxAge && payload.iat && typeof payload.iat === 'number'` and then
`now > payload.iat + maxAge`. -/
def tooOldCheck (payload : JObj) (maxAge : Option Int) (now : Int) : Bool :=
  match maxAge, jget payload "iat" with
  | some m, some (JVal.num i) => m != 0 && i != 0 && decide (i + m < now)
  | _, _ => false

/-- Model of `validateTokenTimes(payload, maxAge?)`: the three checks run in source
order and the first failing one throws; `Except.error` carries the thrown
message.  `now` is the ambient clock reading made on line 105. -/
def validateTokenTimes (payload : JObj) (maxAge : Option Int) (now : Int) :
    Except String Unit :=
  if expiredCheck payload now then Except.error "Token expired"
  else if notYetValidCheck payload now then Except.error "Token not yet valid"
  else if tooOldCheck payload maxAge now then Except.error "Token too old"
  else Except.ok ()

theorem vtt_expired_iff (p : JObj) (m : Option Int) (now : Int) :
    validateTokenTimes p m now = Except.error "Token expired" ↔
      expiredCheck p now = true := by
  rw [validateTokenTimes]
  split_ifs with h1 h2 h3 <;> simp_all

theorem vtt_notYetValid_iff (p : JObj) (m : Option Int) (now : Int) :
    validateTokenTimes p m now = Except.error "Token not yet valid" ↔
      (expiredCheck p now = false ∧ notYetValidCheck p now = true) := by
  rw [validateTokenTimes]
  split_ifs with h1 h2 h3 <;> simp_all

theorem vtt_tooOld_iff (p : JObj) (m : Option Int) (now : Int) :
    validateTokenTimes p m now = Except.error "Token too old" ↔
      (expiredCheck p now = false ∧ notYetValidCheck p now = false ∧
        tooOldCheck p m now = true) := by
  rw [validateTokenTimes]
  split_ifs with h1 h2 h3 <;> simp_all

/-- Claim C3 counterexample: the claim quantifies over every present and
numeric `exp`, but a claims object with `exp = 0` is accepted even though
`now = 0 ≥ exp`, because the truthiness guard `payload.exp &&` skips a zero
value instead of reporting `Token expired`. -/
theorem c3_exp_zero_counterexample :
    jget [("exp", JVal.num 0)] "exp" = some (JVal.num 0) ∧ (0 : Int) ≤ 0 ∧
    validateTokenTimes [("exp", JVal.num 0)] none 0 = Except.ok () :=
  ⟨rfl, le_rfl, rfl⟩

/-- Claim C3 (amended): for every claims object whose `exp` is present,
numeric and nonzero, verification fails with `Token expired` exactly when
`now ≥ exp`; a token with `exp = now` (nonzero) fails with `Token expired`,
while one with `exp = now + 1` never produces that error. -/
theorem validateTokenTimes_expiry_boundary (p : JObj) (m : Option Int) (now e : Int)
    (he : jget p "exp" = some (JVal.num e)) (hne : e ≠ 0) :
    (e ≤ now → validateTokenTimes p m now = Except.error "Token expired") ∧
    (now < e → validateTokenTimes p m now ≠ Except.error "Token expired") := by
  constructor
  · intro hle
    rw [vtt_expired_iff]
    simp [expiredCheck, he, hne, hle]
  · intro hlt hcontra
    rw [vtt_expired_iff] at hcontra
    simp [expiredCheck, he, hne] at hcontra
    omega

theorem validateTokenTimes_expiry_boundary_witness :
    validateTokenTimes [("exp", JVal.num 100)] none 100 = Except.error "Token expired" ∧
    validateTokenTimes [("exp", JVal.num 101)] none 100 ≠ Except.error "Token expired" :=
  ⟨(validateTokenTimes_expiry_boundary [("exp", JVal.num 100)] none 100 100
      rfl (by decide)).1 (by decide),
   (validateTokenTimes_expiry_boundary [("exp", JVal.num 101)] none 100 101
      rfl (by decide)).2 (by decide)⟩

/-- Claim C4 counterexample: `validateTokenTimes` has no caller-supplied
`now` parameter — it reads the ambient system clock internally (utils.ts
line 105).  Two calls with identical arguments (claims object and maxAge)
but different ambient clock readings disagree, so the verdict is not a
function of the arguments alone as the claim asserts. -/
theorem c4_ambient_clock_counterexample :
    validateTokenTimes [("exp", JVal.num 10)] none 5 = Except.ok () ∧
    validateTokenTimes [("exp", JVal.num 10)] none 10 = Except.error "Token expired" :=
  ⟨rfl, rfl⟩

/-- Claim C4 (amended): `validateTokenTimes` reads the ambient clock
internally; modelling that reading as the explicit input `now`, its verdict
is a deterministic pure function of the payload's `exp`/`nbf`/`iat` fields,
the maxAge value, and the clock reading — two calls agreeing on those agree
on the outcome. -/
theorem validateTokenTimes_deterministic (p q : JObj) (m : Option Int) (now : Int)
    (he : jget p "exp" = jget q "exp") (hn : jget p "nbf" = jget q "nbf")
    (hi : jget p "iat" = jget q "iat") :
    validateTokenTimes p m now = validateTokenTimes q m now := by
  simp only [validateTokenTimes, expiredCheck, notYetValidCheck, tooOldCheck,
    he, hn, hi]

theorem validateTokenTimes_deterministic_witness :
    validateTokenTimes [("exp", JVal.num 50), ("a", JVal.null)] (some 3) 7 =
      validateTokenTimes [("a", JVal.bool true), ("exp", JVal.num 50)] (some 3) 7 :=
  validateTokenTimes_deterministic _ _ (some 3) 7 rfl rfl rfl

/-- Claim C9: a time claim equal to 0 disables its own check through the
truthiness guards — `exp = 0` is never reported expired, `nbf = 0` never
not-yet-valid, `iat = 0` never too old — and `maxAge = 0` disables the
too-old check for every claims object. -/
theorem validateTokenTimes_zero_disables (p : JObj) (m : Option Int) (now : Int) :
    (jget p "exp" = some (JVal.num 0) →
      validateTokenTimes p m now ≠ Except.error "Token expired") ∧
    (jget p "nbf" = some (JVal.num 0) →
      validateTokenTimes p m now ≠ Except.error "Token not yet valid") ∧
    (jget p "iat" = some (JVal.num 0) →
      validateTokenTimes p m now ≠ Except.error "Token too old") ∧
    (validateTokenTimes p (some 0) now ≠ Except.error "Token too old") := by
  refine ⟨?_, ?_, ?_, ?_⟩
  · intro h hcontra
    rw [vtt_expired_iff] at hcontra
    simp [expiredCheck, h] at hcontra
  · intro h hcontra
    rw [vtt_notYetValid_iff] at hcontra
    simp [notYetValidCheck, h] at hcontra
  · intro h hcontra
    rw [vtt_tooOld_iff] at hcontra
    rcases hcontra with ⟨-, -, hc⟩
    cases m with
    | none => simp [tooOldCheck] at hc
    | some mv => simp [tooOldCheck, h] at hc
  · intro hcontra
    rw [vtt_tooOld_iff] at hcontra
    rcases hcontra with ⟨-, -, hc⟩
    cases hj : jget p "iat" with
    | none => simp [tooOldCheck, hj] at hc
    | some v => cases v <;> simp [tooOldCheck, hj] at hc

theorem validateTokenTimes_zero_disables_witness :
    validateTokenTimes [("exp", JVal.num 0), ("nbf", JVal.num 0), ("iat", JVal.num 0)]
        (some 5) 1000 ≠ Except.error "Token expired" ∧
    validateTokenTimes [("exp", JVal.num 0), ("nbf", JVal.num 0), ("iat", JVal.num 0)]
        (some 5) 1000 ≠ Except.error "Token too old" :=
  ⟨(validateTokenTimes_zero_disables _ (some 5) 1000).1 rfl,
   (validateTokenTimes_zero_disables _ (some 5) 1000).2.2.1 rfl⟩

/-! ## Token issuance (`generateToken`, core.ts 19–81) -/

/-- One hexadecimal digit, as understood by Node's hex decoder. -/
def hexDigit (c : Char) : Option Nat :=
  if '0' ≤ c ∧ c ≤ '9' then some (c.toNat - 48)
  else if 'a' ≤ c ∧ c ≤ 'f' then some (c.toNat - 87)
  else if 'A' ≤ c ∧ c ≤ 'F' then some (c.toNat - 55)
  else none

/-- Node `Buffer.from(s, 'hex')` byte semantics: successive valid hex pairs
from the start of the string; decoding stops at the first invalid pair (or
lone trailing character) and returns what was decoded so far. -/
def nodeHexBytes : List Char → List Nat
  | c1 :: c2 :: rest =>
    match hexDigit c1, hexDigit c2 with
    | some h, some l => (16 * h + l) :: nodeHexBytes rest
    | _, _ => []
  | _ => []

/-- Model of `Buffer.from(s, 'hex')` as a fallible call: it never throws in
Node — invalid input truncates instead — hence always `Except.ok`. -/
def bufferFromHex (s : String) : Except String (List Nat) :=
  Except.ok (nodeHexBytes s.toList)

/-- Base64 digit value (standard and URL-safe alphabets, as Node accepts). -/
def base64Val (c : Char) : Option Nat :=
  if 'A' ≤ c ∧ c ≤ 'Z' then some (c.toNat - 65)
  else if 'a' ≤ c ∧ c ≤ 'z' then some (c.toNat - 71)
  else if '0' ≤ c ∧ c ≤ '9' then some (c.toNat + 4)
  else if c = '+' ∨ c = '-' then some 62
  else if c = '/' ∨ c = '_' then some 63
  else none

/-- Regroup 6-bit base64 digits into bytes (Node drops incomplete bits). -/
def b64Group : List Nat → List Nat
  | a :: b :: c :: d :: rest =>
    (a * 4 + b / 16) :: ((b % 16) * 16 + c / 4) :: ((c % 4) * 64 + d) :: b64Group rest
  | [a, b] => [a * 4 + b / 16]
  | [a, b, c] => [a * 4 + b / 16, (b % 16) * 16 + c / 4]
  | _ => []

/-- Node `Buffer.from(s, 'base64')` byte semantics: non-alphabet characters
(including `=`) are ignored; never throws.  (This branch of the key decoder
is unreachable — see the C8 theorem — because hex decoding never throws.) -/
def bufferFromBase64 (s : String) : Except String (List Nat) :=
  Except.ok (b64Group (s.toList.filterMap base64Val))

/-- The string-key normalisation of `generateToken` (core.ts 30–41): try
hex, on a throw try base64, on a second throw raise the invalid-key error.
In Node neither decoder throws, so the first branch always wins. -/
def decodePrivateKeyString (s : String) : Except String (List Nat) :=
  match bufferFromHex s with
  | Except.ok b => Except.ok b
  | Except.error _ =>
    match bufferFromBase64 s with
    | Except.ok b => Except.ok b
    | Except.error _ => Except.error "Private key string must be valid hex or base64"

/-- Model of `privateKey: string | Uint8Array` (types.ts line 10). -/
inductive PrivateKeyInput where
  | str (s : String)
  | bytes (b : List Nat)
deriving DecidableEq, Repr

/-- Model of `GenerateTokenOptions` (types.ts 9–15); `none` models an omitted
optional property, so the destructuring defaults of core.ts 20–26 apply. -/
structure GenerateTokenOptions where
  privateKey : PrivateKeyInput
  subject : Option String := none
  issuer : Option String := none
  expiresIn : Option Int := none
  additionalClaims : JObj := []
deriving DecidableEq, Repr

/-- Private-key normalisation (core.ts 29–44): strings go through the
hex/base64 chain, raw byte input is used as-is. -/
def privateKeyBytesOf (options : GenerateTokenOptions) : Except String (List Nat) :=
  match options.privateKey with
  | .str s => decodePrivateKeyString s
  | .bytes b => Except.ok b

/-- External primitives used by issuance, as explicit parameters:
`@noble/ed25519` key derivation and signing, the `blake2b` digest consumed
by `generateSS58Address`, `JSON.stringify`, `TextEncoder().encode`, and
base64url encoding of bytes (`b64urlEncode` delegates entirely to Node's
`Buffer.toString('base64url')`). -/
structure IssuerEnv where
  edGetPublicKey : List Nat → List Nat
  edSign : List Nat → List Nat → List Nat
  blake2b512 : List Nat → List Nat
  stringifyJson : JObj → String
  utf8Encode : String → List Nat
  b64urlEncodeBytes : List Nat → String

/-- The issued token: its decoded header and payload objects together with
the final compact serialisation. -/
structure IssuedToken where
  header : JObj
  payload : JObj
  token : String
deriving DecidableEq, Repr

/-- Model of `generateToken(options)` (core.ts 19–81).  `now` is the ambient clock
reading `Math.floor(Date.now() / 1000)` of line 57.  The claims payload
lists the five fixed fields first and then spreads `additionalClaims`
(lines 58–65), so under `jget` a duplicated key resolves to the extra
claim's value. -/
def generateToken (env : IssuerEnv) (options : GenerateTokenOptions) (now : Int) :
    Except String IssuedToken :=
  let issuer := options.issuer.getD "sensespace"
  let expiresIn := options.expiresIn.getD (30 * 24 * 60 * 60)
  match privateKeyBytesOf options with
  | Except.error e => Except.error e
  | Except.ok privateKeyBytes =>
    if privateKeyBytes.length ≠ 32 then
      Except.error ("Ed25519 private key must be 32 bytes, got " ++
        toString privateKeyBytes.length)
    else
      let publicKey := env.edGetPublicKey privateKeyBytes
      let ss58Address := generateSS58Address env.blake2b512 publicKey
      let sub := match options.subject with
        | some s => if s == "" then ss58Address else s
        | none => ss58Address
      let payload : JObj :=
        [("iat", JVal.num now), ("exp", JVal.num (now + expiresIn)),
         ("nbf", JVal.num now), ("iss", JVal.str issuer), ("sub", JVal.str sub)]
        ++ options.additionalClaims
      let header : JObj := [("alg", JVal.str "EdDSA"), ("typ", JVal.str "JWT")]
      let encodedHeader := env.b64urlEncodeBytes (env.utf8Encode (env.stringifyJson header))
      let encodedPayload := env.b64urlEncodeBytes (env.utf8Encode (env.stringifyJson payload))
      let signingInput := encodedHeader ++ "." ++ encodedPayload
      let signature := env.edSign (env.utf8Encode signingInput) privateKeyBytes
      Except.ok { header := header, payload := payload,
                  token := signingInput ++ "." ++ env.b64urlEncodeBytes signature }

theorem jget_append_right (o e : JObj) (k : String) (v : JVal)
    (h : jget e k = some v) : jget (o ++ e) k = some v := by
  rw [jget, List.reverse_append, List.find?_append]
  rw [jget] at h
  cases hf : e.reverse.find? (fun kv => kv.1 == k) with
  | none => rw [hf] at h; exact absurd h (by simp)
  | some kv => rw [hf] at h; simp [hf, ← h]

theorem jget_append_left (o e : JObj) (k : String)
    (h : jget e k = none) : jget (o ++ e) k = jget o k := by
  rw [jget, List.reverse_append, List.find?_append]
  rw [jget] at h
  cases hf : e.reverse.find? (fun kv => kv.1 == k) with
  | none => simp [hf]; rfl
  | some kv => rw [hf] at h; exact absurd h (by simp)

/-- Claim C7 (amended): the issued payload sets `iat = now`,
`exp = now + expiresIn` (default 30 days), `nbf = now`, `iss` = the issuer
option (default `"sensespace"`), and `sub` = the given subject when that
subject is a nonempty string, otherwise the SS58 address derived from the
private key (`subject || ss58Address` treats an empty string as absent);
`additionalClaims` are spread after the fixed fields, so any extra claim —
in particular one keyed `iat`/`exp`/`nbf`/`iss`/`sub` — overrides the fixed
value. -/
theorem generateToken_claims (env : IssuerEnv) (options : GenerateTokenOptions)
    (now : Int) (t : IssuedToken) (h : generateToken env options now = Except.ok t) :
    (∀ k v, jget options.additionalClaims k = some v → jget t.payload k = some v) ∧
    (jget options.additionalClaims "iat" = none →
      jget t.payload "iat" = some (JVal.num now)) ∧
    (jget options.additionalClaims "exp" = none →
      jget t.payload "exp" =
        some (JVal.num (now + options.expiresIn.getD (30 * 24 * 60 * 60)))) ∧
    (jget options.additionalClaims "nbf" = none →
      jget t.payload "nbf" = some (JVal.num now)) ∧
    (jget options.additionalClaims "iss" = none →
      jget t.payload "iss" = some (JVal.str (options.issuer.getD "sensespace"))) ∧
    (jget options.additionalClaims "sub" = none →
      ∃ kb, privateKeyBytesOf options = Except.ok kb ∧
        jget t.payload "sub" = some (JVal.str (match options.subject with
          | some s => if s == "" then
              generateSS58Address env.blake2b512 (env.edGetPublicKey kb) else s
          | none => generateSS58Address env.blake2b512 (env.edGetPublicKey kb)))) := by
  cases hpk : privateKeyBytesOf options with
  | error e =>
    simp only [generateToken, hpk] at h
    exact absurd h (by simp)
  | ok kb =>
    by_cases hlen : kb.length = 32
    · simp only [generateToken, hpk] at h
      rw [if_neg (by simp [hlen])] at h
      injection h with ht
      subst ht
      refine ⟨?_, ?_, ?_, ?_, ?_, ?_⟩
      · intro k v hkv
        exact jget_append_right _ _ _ _ hkv
      · intro hnone
        exact (jget_append_left _ _ _ hnone).trans rfl
      · intro hnone
        exact (jget_append_left _ _ _ hnone).trans rfl
      · intro hnone
        exact (jget_append_left _ _ _ hnone).trans rfl
      · intro hnone
        exact (jget_append_left _ _ _ hnone).trans rfl
      · intro hnone
        exact ⟨kb, rfl, (jget_append_left _ _ _ hnone).trans rfl⟩
    · simp only [generateToken, hpk] at h
      rw [if_pos hlen] at h
      exact absurd h (by simp)

/-- A concrete issuance environment used only to instantiate theorems:
arbitrary deterministic stand-ins for the external primitives. -/
def testIssuerEnv : IssuerEnv where
  edGetPublicKey := fun kb => kb.reverse
  edSign := fun msg kb => (kb ++ msg).take 64
  blake2b512 := testDigest
  stringifyJson := fun o => toString o.length
  utf8Encode := fun s => s.toList.map Char.toNat
  b64urlEncodeBytes := fun b => toString b.length

/-- Concrete options used by the C7 witness: byte private key, no subject,
extra claims overriding `sub` and adding an application claim. -/
def c7Options : GenerateTokenOptions :=
  { privateKey := PrivateKeyInput.bytes (List.replicate 32 1),
    additionalClaims := [("sub", JVal.str "alice"), ("role", JVal.num 3)] }

/-- The token issued for `c7Options` (used to instantiate the C7 theorem
with a concrete successful issuance). -/
def c7IssuedToken : IssuedToken :=
  match generateToken testIssuerEnv c7Options 5 with
  | Except.ok t => t
  | Except.error _ => { header := [], payload := [], token := "" }

theorem generateToken_claims_witness :
    jget c7IssuedToken.payload "sub" = some (JVal.str "alice") ∧
    jget c7IssuedToken.payload "role" = some (JVal.num 3) ∧
    jget c7IssuedToken.payload "iat" = some (JVal.num 5) ∧
    jget c7IssuedToken.payload "exp" = some (JVal.num (5 + 30 * 24 * 60 * 60)) := by
  have h : generateToken testIssuerEnv c7Options 5 = Except.ok c7IssuedToken := rfl
  have hc := generateToken_claims testIssuerEnv c7Options 5 c7IssuedToken h
  exact ⟨hc.1 "sub" _ rfl, hc.1 "role" _ rfl, hc.2.1 rfl, hc.2.2.1 rfl⟩

/-- Claim C7 counterexample: with an explicitly given empty-string subject
(and no extra `sub` claim), the issued `sub` is not the given subject —
`subject || ss58Address` (core.ts line 63) replaces every falsy subject,
including the empty string, by the derived SS58 address. -/
theorem c7_empty_subject_counterexample :
    (generateToken testIssuerEnv
        { privateKey := PrivateKeyInput.bytes (List.replicate 32 0),
          subject := some "" } 5).map (fun t => jget t.payload "sub")
      ≠ Except.ok (some (JVal.str "")) := by decide

/-- Claim C8: a string private key is decoded by attempting hex first (in
Node this never throws — invalid characters truncate the result — so the
base64 fallback of the catch branch is unreachable); for every input form
the issuance fails with the invalid-key-length error exactly when the
decoded byte length is not 32, and produces a token otherwise. -/
theorem generateToken_key_length (env : IssuerEnv) (options : GenerateTokenOptions)
    (now : Int) :
    (∀ s, options.privateKey = PrivateKeyInput.str s →
      privateKeyBytesOf options = Except.ok (nodeHexBytes s.toList)) ∧
    (∀ kb, privateKeyBytesOf options = Except.ok kb →
      (kb.length ≠ 32 →
        generateToken env options now =
          Except.error ("Ed25519 private key must be 32 bytes, got " ++
            toString kb.length)) ∧
      (kb.length = 32 → ∃ t, generateToken env options now = Except.ok t)) := by
  constructor
  · intro s hs
    rw [privateKeyBytesOf, hs]
    rfl
  · intro kb hkb
    constructor
    · intro hne
      simp only [generateToken, hkb]
      rw [if_pos hne]
    · intro heq
      simp only [generateToken, hkb]
      rw [if_neg (by simp [heq])]
      exact ⟨_, rfl⟩

/-- Concrete options used by the C8 witness: a string key of 64 hex zeros. -/
def c8Options : GenerateTokenOptions :=
  { privateKey := PrivateKeyInput.str (String.mk (List.replicate 64 '0')) }

theorem generateToken_key_length_witness :
    privateKeyBytesOf c8Options = Except.ok (List.replicate 32 0) ∧
    (∃ t, generateToken testIssuerEnv c8Options 0 = Except.ok t) := by
  have h1 := (generateToken_key_length testIssuerEnv c8Options 0).1 _ rfl
  have h2 : nodeHexBytes (String.mk (List.replicate 64 '0')).toList
      = List.replicate 32 0 := by decide
  rw [h2] at h1
  refine ⟨h1, ?_⟩
  exact (generateToken_key_length testIssuerEnv c8Options 0).2 _ h1 |>.2 (by decide)

/-! ## Token verification (`verifyToken`, core.ts 86–165) -/

/-- External primitives used by verification, as explicit parameters:
`parseB64Json` models `JSON.parse(b64urlDecode(seg).toString())` for the
header/payload segments (`none` is a thrown `SyntaxError`); `b64DecodeBytes`
models `b64urlDecode` of the signature segment (total in Node);
`edVerify sig msg key` models `ed25519.verify`; `fetchDidDoc` models the
optional `fetch` + `response.ok` + `json()` chain (`none` is any failure,
swallowed by the inner try/catch); `now` is the ambient clock reading used
by `validateTokenTimes`. -/
structure VerifyEnv where
  parseB64Json : String → Option JObj
  b64DecodeBytes : String → List Nat
  edVerify : List Nat → List Nat → List Nat → Bool
  utf8Encode : String → List Nat
  fetchDidDoc : String → Option JObj
  now : Int

/-- Model of `split('.')` on a character list: every `'.'` starts a new segment; the
empty string yields one empty segment, exactly as in JavaScript. -/
def splitDot : List Char → List (List Char)
  | [] => [[]]
  | c :: rest =>
    let r := splitDot rest
    if c = '.' then [] :: r
    else
      match r with
      | [] => [[c]]
      | g :: gs => (c :: g) :: gs

/-- JavaScript `token.split('.')`. -/
def jsSplitDot (s : String) : List String := (splitDot s.toList).map String.mk

/-- Model of `splitJWT(token)` (utils.ts 28–41): split on `.`, require exactly three
segments, JSON-decode the first two, base64url-decode the third. -/
def splitJWT (env : VerifyEnv) (token : String) :
    Except String (JObj × JObj × List Nat) :=
  match jsSplitDot token with
  | [h, p, s] =>
    match env.parseB64Json h with
    | none => Except.error "Unexpected token in JSON (header)"
    | some header =>
      match env.parseB64Json p with
      | none => Except.error "Unexpected token in JSON (payload)"
      | some payload => Except.ok (header, payload, env.b64DecodeBytes s)
  | _ => Except.error "Invalid JWT format"

/-- Model of `header.alg !== 'EdDSA'` inverted: true exactly when the header's `alg`
is the string `"EdDSA"` (strict equality). -/
def algIsEdDSA (header : JObj) : Bool :=
  match jget header "alg" with
  | some (JVal.str a) => a == "EdDSA"
  | _ => false

/-- Guard of the issuer check (core.ts 112–116):
`allowedIssuers.length > 0 && payload.iss` (truthiness) and
`!allowedIssuers.includes(payload.iss)` (strict `includes`, so a non-string
`iss` never matches). -/
def issuerCheckFails (allowedIssuers : List String) (payload : JObj) : Bool :=
  decide (0 < allowedIssuers.length) &&
    (match jget payload "iss" with
     | some v => truthy v &&
        !(match v with | JVal.str s => allowedIssuers.contains s | _ => false)
     | none => false)

/-- Model of `TokenVerifierOptions` (types.ts 17–21); `none` models an omitted
property, so the destructuring defaults of core.ts 90–94 apply. -/
structure TokenVerifierOptions where
  didBaseUrl : Option String := none
  allowedIssuers : Option (List String) := none
  maxTokenAge : Option Int := none

/-- The body of the `try` block of `verifyToken` (core.ts 96–157): the
linear pipeline with early exit, as an `Except` computation. -/
def verifyTokenE (env : VerifyEnv) (token : String) (options : TokenVerifierOptions) :
    Except String (JObj × Option JObj) :=
  let didBaseUrl := options.didBaseUrl.getD "https://api.sensespace.xyz/api/did/"
  let allowedIssuers := options.allowedIssuers.getD ["sensespace"]
  match splitJWT env token with
  | Except.error e => Except.error e
  | Except.ok (header, payload, signatureBytes) =>
    match jget payload "sub" with
    | some (JVal.str sub) =>
      if sub == "" then Except.error "JWT payload has no valid subject"
      else if algIsEdDSA header = false then
        Except.error ("Unsupported algorithm: " ++ jsDisplay (jget header "alg") ++
          ", expected EdDSA")
      else if issuerCheckFails allowedIssuers payload then
        Except.error ("Invalid issuer: " ++ jsDisplay (jget payload "iss"))
      else
        match validateTokenTimes payload options.maxTokenAge env.now with
        | Except.error e => Except.error e
        | Except.ok _ =>
          match ss58DecodePublicKey sub with
          | Except.error e => Except.error e
          | Except.ok publicKeyBytes =>
            let parts := jsSplitDot token
            let signingInput := parts.getD 0 "" ++ "." ++ parts.getD 1 ""
            if env.edVerify signatureBytes (env.utf8Encode signingInput) publicKeyBytes
            then
              let didDocument :=
                if didBaseUrl != "" && sub.startsWith "5" then
                  env.fetchDidDoc (didBaseUrl ++ sub)
                else none
              Except.ok (payload, didDocument)
            else Except.error "Invalid JWT signature"
    | _ => Except.error "JWT payload has no valid subject"

/-- Model of `VerifyTokenResult` (types.ts 2–7): the two reachable shapes —
`{success: true, claims, didDocument?}` and `{success: false, error}`. -/
inductive VerifyTokenResult where
  | success (claims : JObj) (didDocument : Option JObj)
  | failure (error : String)
deriving DecidableEq, Repr

/-- Model of `verifyToken(token, options)` (core.ts 86–165): the catch-all of lines
159–164 turns every thrown error into a failure result carrying its
message. -/
def verifyToken (env : VerifyEnv) (token : String) (options : TokenVerifierOptions) :
    VerifyTokenResult :=
  match verifyTokenE env token options with
  | Except.ok (claims, didDocument) => VerifyTokenResult.success claims didDocument
  | Except.error e => VerifyTokenResult.failure e

/-- Claim C6: `verifyToken` never propagates an exception — for every token
string, configuration, and behaviour of the external primitives it returns
either a success carrying the claims (and optional document) or a failure
carrying a message; there is no partial-success state. -/
theorem verifyToken_total (env : VerifyEnv) (token : String)
    (options : TokenVerifierOptions) :
    (∃ claims doc, verifyToken env token options = VerifyTokenResult.success claims doc) ∨
    (∃ msg, verifyToken env token options = VerifyTokenResult.failure msg) := by
  rw [verifyToken]
  cases verifyTokenE env token options with
  | ok r =>
    obtain ⟨c, d⟩ := r
    exact Or.inl ⟨c, d, rfl⟩
  | error e => exact Or.inr ⟨e, rfl⟩

theorem verifyToken_badAlg_eval (token : String) (options : TokenVerifierOptions)
    (header payload : JObj) (sig : List Nat) (halg : algIsEdDSA header = false)
    (env' : VerifyEnv) (hs' : splitJWT env' token = Except.ok (header, payload, sig)) :
    verifyToken env' token options = (match jget payload "sub" with
      | some (JVal.str s) =>
        if s == "" then VerifyTokenResult.failure "JWT payload has no valid subject"
        else VerifyTokenResult.failure ("Unsupported algorithm: " ++
          jsDisplay (jget header "alg") ++ ", expected EdDSA")
      | _ => VerifyTokenResult.failure "JWT payload has no valid subject") := by
  rw [verifyToken]
  have hE : verifyTokenE env' token options = (match jget payload "sub" with
      | some (JVal.str s) =>
        if s == "" then Except.error "JWT payload has no valid subject"
        else Except.error ("Unsupported algorithm: " ++
          jsDisplay (jget header "alg") ++ ", expected EdDSA")
      | _ => Except.error "JWT payload has no valid subject") := by
    simp only [verifyTokenE, hs']
    cases jget payload "sub" with
    | none => rfl
    | some v =>
      cases v with
      | str s =>
        by_cases hs0 : s == ""
        · simp [hs0]
        · simp [hs0, halg]
      | num n => rfl
      | bool b => rfl
      | null => rfl
  rw [hE]
  cases jget payload "sub" with
  | none => rfl
  | some v =>
    cases v with
    | str s =>
      by_cases hs0 : s == ""
      · simp [hs0]
      · simp [hs0]
    | num n => rfl
    | bool b => rfl
    | null => rfl

/-- Claim C5 (amended): if the token parses and the decoded header's `alg`
differs from the string `"EdDSA"`, verification fails; when the earlier
subject check passes (a nonempty string `sub`) the failure message names
the offending algorithm; and in every case the verdict is independent of
the Ed25519 verifier — signature verification is never attempted. -/
theorem verifyToken_algorithm_gate (env : VerifyEnv) (token : String)
    (options : TokenVerifierOptions) (header payload : JObj) (sig : List Nat)
    (hsplit : splitJWT env token = Except.ok (header, payload, sig))
    (halg : algIsEdDSA header = false) :
    (∃ msg, verifyToken env token options = VerifyTokenResult.failure msg) ∧
    (∀ sub, jget payload "sub" = some (JVal.str sub) → sub ≠ "" →
      verifyToken env token options =
        VerifyTokenResult.failure ("Unsupported algorithm: " ++
          jsDisplay (jget header "alg") ++ ", expected EdDSA")) ∧
    (∀ f, verifyToken { env with edVerify := f } token options =
      verifyToken env token options) := by
  refine ⟨?_, ?_, ?_⟩
  · rw [verifyToken_badAlg_eval token options header payload sig halg env hsplit]
    cases jget payload "sub" with
    | none => exact ⟨_, rfl⟩
    | some v =>
      cases v with
      | str s =>
        by_cases hs0 : s == ""
        · refine ⟨"JWT payload has no valid subject", ?_⟩
          simp [hs0]
        · refine ⟨"Unsupported algorithm: " ++ jsDisplay (jget header "alg") ++
            ", expected EdDSA", ?_⟩
          simp [hs0]
      | num n => exact ⟨_, rfl⟩
      | bool b => exact ⟨_, rfl⟩
      | null => exact ⟨_, rfl⟩
  · intro sub hsub hne
    rw [verifyToken_badAlg_eval token options header payload sig halg env hsplit, hsub]
    simp [hne]
  · intro f
    rw [verifyToken_badAlg_eval token options header payload sig halg env hsplit]
    exact verifyToken_badAlg_eval token options header payload sig halg
      { env with edVerify := f } hsplit

/-- A concrete verification environment used only to instantiate theorems:
the parse oracle serves two fixed tokens, everything else is a fixed
stand-in. -/
def testVerifyEnv : VerifyEnv where
  parseB64Json := fun s =>
    if s = "h" then some [("alg", JVal.str "HS256")]
    else if s = "p" then some []
    else if s = "h2" then some [("alg", JVal.str "none")]
    else if s = "p2" then some [("sub", JVal.str "5GgG")]
    else none
  b64DecodeBytes := fun _ => []
  edVerify := fun _ _ _ => true
  utf8Encode := fun s => s.toList.map Char.toNat
  fetchDidDoc := fun _ => none
  now := 0

/-- Claim C5 counterexample: a token whose decoded header carries
`alg = "HS256"` but whose payload lacks a subject fails with the subject
message — the subject check (core.ts 100–104) runs before the algorithm
gate (106–109) — so the failure does not name the offending algorithm. -/
theorem c5_subject_before_algorithm_counterexample :
    verifyToken testVerifyEnv "h.p.s" {} =
      VerifyTokenResult.failure "JWT payload has no valid subject" ∧
    "JWT payload has no valid subject" ≠ "Unsupported algorithm: HS256, expected EdDSA" := by
  constructor
  · rfl
  · decide

theorem verifyToken_algorithm_gate_witness :
    verifyToken testVerifyEnv "h2.p2.s" {} =
      VerifyTokenResult.failure "Unsupported algorithm: none, expected EdDSA" := by
  have h := (verifyToken_algorithm_gate testVerifyEnv "h2.p2.s" {}
    [("alg", JVal.str "none")] [("sub", JVal.str "5GgG")] [] rfl rfl).2.1
    "5GgG" rfl (by decide)
  exact h

end SenseSpace
